import Mathlib

/-!
Verification model of the comparison core of `diff_tool_pro.py`
(`FileAnalyzer` and the result shape consumed by `ReportGenerator`).

Shallow-embedding conventions:

* A file on disk is modelled by `FileState`:
  - `size` is the outcome of `os.path.getsize` (`none` = the call raises);
  - `bytes` is the outcome of `open(path, "rb")` + reading (`none` = any
    read failure, which `get_file_hash`'s `except` clause turns into the
    Python value `None`);
  - `mimeText` is the outcome of the `mimetypes.guess_type` lookup
    (`true` iff a `text/...` type was guessed); the stdlib extension table
    is modelled as a per-file observation.
* The SHA-256 digest is idealised as the byte content itself
  (a collision-free fingerprint: digest equality iff byte equality),
  so `get_file_hash` returns `Option` of the content; `None` from the
  Python code is `none` here.
* Python `float` similarity values are modelled as exact rationals `ℚ`.
* A `compare` run that raises an uncaught exception is modelled as `none`;
  a returned result dictionary is `some` of a `CompareResult`.
* Text decoding (`encoding="utf-8"`) is modelled by an explicit UTF-8
  decoder over byte lists; the chunk granularity of Python's text IO is
  abstracted: `f.read(512)` is modelled as decoding exactly 512 characters
  (or up to end of file).
-/

namespace DiffTool

/-- Paths are strings, modelled as lists of characters. -/
abbrev Path := List Char

/-- Bytes of a file: each entry is one byte value `0..255`. -/
abbrev Bytes := List Nat

/-- State of one file on disk, as observed by the tool's primitives. -/
structure FileState where
  /-- Outcome of `os.path.getsize`: `none` models the call raising. -/
  size : Option Nat
  /-- Outcome of opening the file for binary reading: `none` models any
  read failure (missing file, permission error, I/O error). -/
  bytes : Option Bytes
  /-- Outcome of `mimetypes.guess_type(path)`: `true` iff the guessed type
  exists and starts with `text`. -/
  mimeText : Bool
  deriving DecidableEq, Repr

/-! UTF-8 decoding (models Python `str` decoding of bytes)

`utf8ParseChar` parses one scalar value from the front of a byte list,
exactly per RFC 3629 (as CPython's strict UTF-8 codec does: overlong
encodings, surrogates and values above U+10FFFF are rejected).
It returns the code point and the number of bytes consumed. -/

def utf8ParseChar : Bytes → Option (Nat × Nat)
  | [] => none
  | b0 :: rest =>
    if b0 < 128 then some (b0, 1)
    else if 194 ≤ b0 ∧ b0 ≤ 223 then
      match rest with
      | b1 :: _ =>
        if 128 ≤ b1 ∧ b1 ≤ 191 then some ((b0 - 192) * 64 + (b1 - 128), 2) else none
      | [] => none
    else if 224 ≤ b0 ∧ b0 ≤ 239 then
      match rest with
      | b1 :: b2 :: _ =>
        let lo1 := if b0 = 224 then 160 else 128
        let hi1 := if b0 = 237 then 159 else 191
        if lo1 ≤ b1 ∧ b1 ≤ hi1 ∧ 128 ≤ b2 ∧ b2 ≤ 191 then
          some ((b0 - 224) * 4096 + (b1 - 128) * 64 + (b2 - 128), 3)
        else none
      | _ => none
    else if 240 ≤ b0 ∧ b0 ≤ 244 then
      match rest with
      | b1 :: b2 :: b3 :: _ =>
        let lo1 := if b0 = 240 then 144 else 128
        let hi1 := if b0 = 244 then 143 else 191
        if lo1 ≤ b1 ∧ b1 ≤ hi1 ∧ 128 ≤ b2 ∧ b2 ≤ 191 ∧ 128 ≤ b3 ∧ b3 ≤ 191 then
          some ((b0 - 240) * 262144 + (b1 - 128) * 4096 + (b2 - 128) * 64 + (b3 - 128), 4)
        else none
      | _ => none
    else none

/-- Models `f.read(n)` on a file opened with `encoding="utf-8"` (strict):
`true` iff reading `n` characters raises no `UnicodeDecodeError`.
Reading stops successfully after `n` characters or at end of file;
a malformed or truncated sequence encountered before that fails. -/
def utf8ReadOk : Nat → Bytes → Bool
  | _, [] => true
  | 0, _ => true
  | n + 1, bs =>
    match utf8ParseChar bs with
    | some (_, c) => utf8ReadOk n (bs.drop c)
    | none => false

/-- Auxiliary decoder with fuel (the fuel is the byte count, which bounds
the number of steps since every step consumes at least one byte). -/
def utf8DecodeIgnoreAux : Nat → Bytes → List Nat
  | 0, _ => []
  | _ + 1, [] => []
  | fuel + 1, b :: rest =>
    match utf8ParseChar (b :: rest) with
    | some (cp, c) => cp :: utf8DecodeIgnoreAux fuel ((b :: rest).drop c)
    | none => utf8DecodeIgnoreAux fuel rest

/-- Models decoding a whole byte string with `errors="ignore"`:
undecodable bytes are dropped, everything else becomes code points.
(CPython drops a maximal invalid subpart per error; since no continuation
byte can start a character, dropping byte-by-byte yields the same output.) -/
def utf8DecodeIgnore (bs : Bytes) : List Nat := utf8DecodeIgnoreAux bs.length bs

/-! `difflib.SequenceMatcher` (as used: `isjunk=None`, `autojunk=True`)

Token sequences are code-point lists. `b2j` maps an element to its indices
in `b`, with the autojunk rule: when `len(b) >= 200`, elements occurring
more than `len(b) // 100 + 1` times are dropped from the index.
With `isjunk=None` the junk set `bjunk` is empty, so the two junk-extension
loops of `find_longest_match` never fire and are omitted. -/

def b2j (b : List Nat) (x : Nat) : List Nat :=
  let idxs := ((b.enum.filter (fun p => p.2 = x)).map Prod.fst)
  if decide (200 ≤ b.length) && decide (b.length / 100 + 1 < idxs.length) then [] else idxs

/-- Models `j2len.get(j, 0)`: lookup in an association list with default `0`. -/
def j2get : List (Nat × Nat) → Nat → Nat
  | [], _ => 0
  | (a, v) :: rest, j => if a = j then v else j2get rest j

/-- Inner loop of `find_longest_match` for one row `i`: walks the index
list `js` of `a[i]` in `b` (already restricted to `[blo, bhi)`), building
the new `j2len` row and updating the best match.  `k = j2len.get(j-1, 0)+1`
(with Python's absent key `-1` when `j = 0` giving `0`); the best triple is
replaced only on strictly greater length, so the earliest `i`, then
earliest `j`, is kept — exactly difflib's tie-breaking.
`i + 1 - k` equals Python's `i - k + 1` because `k ≤ i + 1`. -/
def flmRow (i : Nat) (old : List (Nat × Nat)) :
    List Nat → List (Nat × Nat) → Nat × Nat × Nat → List (Nat × Nat) × (Nat × Nat × Nat)
  | [], new, best => (new, best)
  | j :: js, new, best =>
    let prev := if j = 0 then 0 else j2get old (j - 1)
    let k := prev + 1
    let best := if k > best.2.2 then (i + 1 - k, j + 1 - k, k) else best
    flmRow i old js ((j, k) :: new) best

/-- Outer loop of `find_longest_match` over `i ∈ [alo, ahi)`. The
`continue`/`break` on `j < blo` / `j ≥ bhi` is a filter, since index
lists are ascending. -/
def flmDP (a b : List Nat) (blo bhi : Nat) :
    List Nat → List (Nat × Nat) → Nat × Nat × Nat → Nat × Nat × Nat
  | [], _, best => best
  | i :: is, j2len, best =>
    let js := (b2j b (a.getD i 0)).filter (fun j => decide (blo ≤ j) && decide (j < bhi))
    let (new, best) := flmRow i j2len js [] best
    flmDP a b blo bhi is new best

/-- The first extension loop: widen the best match to the left over equal
elements (the junk guard is vacuous since `bjunk = ∅`).  Structurally
recursive on `bi`, which the loop decrements; at `bi = 0` the guard
`alo < bi` is false, so stopping there is the loop's own exit. -/
def extLeft (a b : List Nat) (alo blo : Nat) : Nat → Nat → Nat → Nat × Nat × Nat
  | 0, bj, sz => (0, bj, sz)
  | bi + 1, bj, sz =>
    if alo < bi + 1 ∧ blo < bj ∧ a.getD bi 0 = b.getD (bj - 1) 0 then
      extLeft a b alo blo bi (bj - 1) (sz + 1)
    else (bi + 1, bj, sz)

/-- The second extension loop: widen the best match to the right.  The
fuel argument is exactly `ahi - (bi + sz)`, the number of loop steps still
allowed by the guard `bi + sz < ahi`, so the fuel-out case coincides with
that guard being false. -/
def extRightAux (a b : List Nat) (ahi bhi bi bj : Nat) : Nat → Nat → Nat
  | 0, sz => sz
  | fuel + 1, sz =>
    if bi + sz < ahi ∧ bj + sz < bhi ∧ a.getD (bi + sz) 0 = b.getD (bj + sz) 0 then
      extRightAux a b ahi bhi bi bj fuel (sz + 1)
    else sz

def extRight (a b : List Nat) (ahi bhi : Nat) (bi bj : Nat) (sz : Nat) : Nat :=
  extRightAux a b ahi bhi bi bj (ahi - (bi + sz)) sz

/-- Models `SequenceMatcher.find_longest_match(alo, ahi, blo, bhi)`. -/
def findLongestMatch (a b : List Nat) (alo ahi blo bhi : Nat) : Nat × Nat × Nat :=
  let best := flmDP a b blo bhi (List.range' alo (ahi - alo)) [] (alo, blo, 0)
  let ext := extLeft a b alo blo best.1 best.2.1 best.2.2
  (ext.1, ext.2.1, extRight a b ahi bhi ext.1 ext.2.1 ext.2.2)

/-- Total size of all matching blocks found by `get_matching_blocks`'s
queue recursion (the final sort/merge of blocks preserves this sum, and
`ratio` uses only the sum).  The fuel bounds the recursion depth: each
recursive call strictly shrinks `(ahi - alo) + (bhi - blo)`, so
`a.length + b.length + 1` always suffices at the top level. -/
def matchTotal (a b : List Nat) : Nat → Nat → Nat → Nat → Nat → Nat
  | 0, _, _, _, _ => 0
  | fuel + 1, alo, ahi, blo, bhi =>
    let m := findLongestMatch a b alo ahi blo bhi
    let i := m.1
    let j := m.2.1
    let k := m.2.2
    if k = 0 then 0
    else
      k + (if alo < i ∧ blo < j then matchTotal a b fuel alo i blo j else 0)
        + (if i + k < ahi ∧ j + k < bhi then matchTotal a b fuel (i + k) ahi (j + k) bhi else 0)

/-- Models `SequenceMatcher(None, a, b).ratio()`: `2*M/T`, and `1.0` when both
sequences are empty (`_calculate_ratio`). -/
def seqSimilarity (a b : List Nat) : ℚ :=
  if a.length + b.length = 0 then 1
  else (2 * (matchTotal a b (a.length + b.length + 1) 0 a.length 0 b.length) : ℚ) /
    ((a.length + b.length : Nat) : ℚ)

/-! `FileAnalyzer` primitives -/

/-- Models `FileAnalyzer.get_file_hash`: streams the file in 4096-byte blocks into
SHA-256 and returns the hex digest, or Python `None` on any exception.
The digest is idealised as the byte content itself (equal digests iff
equal bytes), so the result is the readable content or `none`. -/
def get_file_hash (st : FileState) : Option Bytes := st.bytes

/-- Models `FileAnalyzer.is_text_file`: `True` if the MIME guess is a `text/...`
family; otherwise the result of attempting
`open(path, "r", encoding="utf-8").read(512)` — `True` on success,
`False` on any exception (unreadable file or decode error). -/
def is_text_file (st : FileState) : Bool :=
  st.mimeText ||
    (match st.bytes with
     | some bs => utf8ReadOk 512 bs
     | none => false)

/-- Models `FileAnalyzer.get_text_similarity`: read both files fully with
`encoding="utf-8", errors="ignore"` and return
`SequenceMatcher(None, text1, text2).ratio()`; `0.0` on any exception
(i.e. when either file cannot be read). -/
def get_text_similarity (st1 st2 : FileState) : ℚ :=
  match st1.bytes, st2.bytes with
  | some b1, some b2 => seqSimilarity (utf8DecodeIgnore b1) (utf8DecodeIgnore b2)
  | _, _ => 0

/-! `f"{sim:.1%}"` formatting -/

/-- The decimal digit character for `n % 10`. -/
def digitChar (n : Nat) : Char := Char.ofNat (48 + n % 10)

/-- Decimal digits of a natural number, most significant first
(fuel-based; `n` itself always suffices as fuel). -/
def natRepAux : Nat → Nat → List Char → List Char
  | 0, n, acc => digitChar n :: acc
  | fuel + 1, n, acc =>
    if n < 10 then digitChar n :: acc else natRepAux fuel (n / 10) (digitChar (n % 10) :: acc)

def natRepChars (n : Nat) : List Char := natRepAux n n []

/-- Round to the nearest integer, ties to even — the rounding used by
Python's fixed-point float formatting. -/
def roundHalfEven (q : ℚ) : Int :=
  let f := q.floor
  let r := q - (f : ℚ)
  if r < 1 / 2 then f
  else if 1 / 2 < r then f + 1
  else if f % 2 = 0 then f else f + 1

/-- Characters of `f"{q:.1%}"`: the value times 100, with exactly one
fractional digit, followed by `%`. Always contains a decimal point. -/
def fmtPercentChars (q : ℚ) : List Char :=
  let m := roundHalfEven (1000 * q)
  let sign : List Char := if m < 0 then ['-'] else []
  let a := m.natAbs
  sign ++ natRepChars (a / 10) ++ ('.' :: digitChar (a % 10) :: ['%'])

/-- Models `f"{q:.1%}"` as a string. -/
def fmtPercent (q : ℚ) : String := String.mk (fmtPercentChars q)

/-! `FileAnalyzer.extract_or_walk`

A `PathMap` is the dictionary built by `extract_or_walk`: normalized
relative path (`os.sep` replaced by `/`) mapped to the file found there,
with the file's resolvable location replaced by its observed `FileState`.
Python dictionaries have unique keys; an association list with first-match
lookup models them (maps built by the walk never repeat a key). -/

abbrev PathMap := List (Path × FileState)

/-- Keys of a path map (`files.keys()`). -/
def keysOf (m : PathMap) : List Path := m.map Prod.fst

/-- Models `files.get(rel_path)` and `rel_path in files`. -/
def lookupPM : PathMap → Path → Option FileState
  | [], _ => none
  | (k, v) :: rest, q => if k = q then some v else lookupPM rest q

/-- Index of the last occurrence of `c` in `p`, or `-1` (`str.rfind`). -/
def rfindPos (p : Path) (c : Char) : Int :=
  match ((p.enum.filter (fun q => q.2 = c)).map Prod.fst).getLast? with
  | some i => (i : Int)
  | none => -1

/-- Models `os.path.splitext` (POSIX separator `/`, no alternative separator):
split at the last dot, provided it comes after the last separator and the
basename has at least one non-dot character before that dot (so dotfiles
like `.bashrc` have no extension). -/
def splitext (p : Path) : Path × Path :=
  let sepIndex := rfindPos p '/'
  let dotIndex := rfindPos p '.'
  if sepIndex < dotIndex then
    let fi := (sepIndex + 1).toNat
    let di := dotIndex.toNat
    if (List.range' fi (di - fi)).any (fun i => decide (p.getD i '.' ≠ '.')) then
      (p.take di, p.drop di)
    else (p, [])
  else (p, [])

/-- Models `str.lower` restricted to ASCII letters (the archive extensions the
tool compares against are all ASCII). -/
def lowerChar (c : Char) : Char :=
  if 'A' ≤ c ∧ c ≤ 'Z' then Char.ofNat (c.toNat + 32) else c

def lowerStr (p : Path) : Path := p.map lowerChar

/-- The archive extensions recognized by `extract_or_walk`. -/
def archiveExts : List Path := [".zip".data, ".ipa".data, ".apk".data, ".jar".data]

/-- Models `ext = os.path.splitext(target_path)[1].lower();
ext in ['.zip', '.ipa', '.apk', '.jar']`. -/
def is_archive_path (p : Path) : Bool :=
  decide (lowerStr (splitext p).2 ∈ archiveExts)

/-- One comparison input (the `target_path` argument of `extract_or_walk`)
together with what the filesystem holds there:

* `zipExtract` is the outcome of treating the path as a zip container —
  `some m` when `ZipFile` + `extractall` succeed and walking the scratch
  subdirectory yields the map `m` of the archive's files; `none` when any
  step raises (corrupt or unsupported archive, `makedirs` failure).
* `dirWalk` is the map produced by `os.walk` over the path taken directly
  as a directory (empty for a nonexistent or empty directory; `os.walk`
  itself never raises with the default `onerror`). -/
structure Source where
  path : Path
  zipExtract : Option PathMap
  dirWalk : PathMap

/-- Models `FileAnalyzer.extract_or_walk`: archives (by lowercased extension) are
extracted into the scratch area and the extraction directory is walked;
extraction failure yields `{}`; everything else walks the path directly. -/
def extract_or_walk (s : Source) : PathMap :=
  if is_archive_path s.path then
    match s.zipExtract with
    | some m => m
    | none => []
  else s.dirWalk

/-! `FileAnalyzer.compare` -/

/-- One entry of `result["details"]`, with the fields of the Python dict. -/
structure Item where
  path : Path
  status : String
  similarity : ℚ
  similarity_str : String
  size_a : Nat
  size_b : Nat
  size_diff : Int
  type_category : String
  deriving DecidableEq, Repr

/-- Models `result["summary"]`. -/
structure Summary where
  same : Nat
  diff : Nat
  added : Nat
  deleted : Nat
  total : Nat
  deriving DecidableEq, Repr

/-- Models `result` as returned by `compare`. -/
structure CompareResult where
  summary : Summary
  details : List Item
  deriving DecidableEq, Repr

/-- Which branch of the per-key `if`/`elif` chain fired (used to mirror
the summary increment done inside each branch). -/
inductive Branch where
  | same
  | diff
  | added
  | deleted
  | unknown
  deriving DecidableEq, Repr

/-- The size observation for one side of a key:
`if in_x: item["size_x"] = os.path.getsize(p_x)` — absent files keep the
initialized `0`; a present file whose `getsize` raises aborts `compare`
(that call is not inside any `try`). -/
def sizeOf? : Option FileState → Option Nat
  | some st => st.size
  | none => some 0

/-- The classification body for one key, given both lookups and the two
(already obtained) sizes.  Mirrors the `if in_a and in_b / elif / elif`
chain of `compare`, including every field the branch assigns; fields not
assigned keep the initialized values
(`status=""`, `similarity=0.0`, `similarity_str="0%"`, sizes `0`,
`size_diff=0`, `type_category="unknown"`). -/
def buildItem (rel : Path) (a? b? : Option FileState) (sa sb : Nat) : Item × Branch :=
  match a?, b? with
  | some stA, some stB =>
    let sd : Int := (sb : Int) - (sa : Int)
    if get_file_hash stA = get_file_hash stB then
      ({ path := rel, status := "相同", similarity := 1, similarity_str := "100%",
         size_a := sa, size_b := sb, size_diff := sd, type_category := "same" }, .same)
    else if is_text_file stA && is_text_file stB then
      let sim := get_text_similarity stA stB
      ({ path := rel, status := "差异", similarity := sim, similarity_str := fmtPercent sim,
         size_a := sa, size_b := sb, size_diff := sd, type_category := "diff" }, .diff)
    else
      ({ path := rel, status := "差异", similarity := 0, similarity_str := "Hash不同",
         size_a := sa, size_b := sb, size_diff := sd, type_category := "diff" }, .diff)
  | some _, none =>
    ({ path := rel, status := "已删除", similarity := 0, similarity_str := "0%",
       size_a := sa, size_b := sb, size_diff := -(sa : Int), type_category := "deleted" }, .deleted)
  | none, some _ =>
    ({ path := rel, status := "新增", similarity := 0, similarity_str := "0%",
       size_a := sa, size_b := sb, size_diff := (sb : Int), type_category := "added" }, .added)
  | none, none =>
    ({ path := rel, status := "", similarity := 0, similarity_str := "0%",
       size_a := sa, size_b := sb, size_diff := 0, type_category := "unknown" }, .unknown)

/-- One iteration of the `for rel_path in sorted(list(all_keys))` loop:
`none` models the iteration raising (a `getsize` failure on a present
file), `some` is the record together with its branch. -/
def processKey (fa fb : PathMap) (rel : Path) : Option (Item × Branch) :=
  match sizeOf? (lookupPM fa rel), sizeOf? (lookupPM fb rel) with
  | some sa, some sb => some (buildItem rel (lookupPM fa rel) (lookupPM fb rel) sa sb)
  | _, _ => none

/-- The per-branch summary increment. -/
def bump (s : Summary) : Branch → Summary
  | .same => { s with same := s.same + 1 }
  | .diff => { s with diff := s.diff + 1 }
  | .added => { s with added := s.added + 1 }
  | .deleted => { s with deleted := s.deleted + 1 }
  | .unknown => s

/-- The whole per-key loop over the sorted key list: accumulates the
summary counters (all starting at `0`) and appends one record per key;
`none` as soon as one iteration raises. -/
def compareFold (fa fb : PathMap) : List Path → Option (Summary × List Item)
  | [] => some ({ same := 0, diff := 0, added := 0, deleted := 0, total := 0 }, [])
  | k :: ks =>
    match processKey fa fb k with
    | none => none
    | some (it, br) =>
      match compareFold fa fb ks with
      | none => none
      | some (s, items) => some (bump s br, it :: items)

/-- Lexicographic order on paths by code point, as Python's `sorted` uses
on strings. -/
def pathLe : Path → Path → Bool
  | [], _ => true
  | _ :: _, [] => false
  | a :: as, b :: bs => if a = b then pathLe as bs else decide (a < b)

def insertPath (x : Path) : List Path → List Path
  | [] => [x]
  | y :: ys => if pathLe x y then x :: y :: ys else y :: insertPath x ys

/-- Models `sorted(...)` (insertion sort; Python's sort is stable, but the sorted
input here is duplicate-free so any sorting agrees). -/
def sortPaths : List Path → List Path
  | [] => []
  | x :: xs => insertPath x (sortPaths xs)

/-- Models `sorted(list(set(files_a.keys()) | set(files_b.keys())))`:
the distinct keys of both maps, in ascending order. -/
def unionKeys (fa fb : PathMap) : List Path :=
  sortPaths (List.dedup (keysOf fa ++ keysOf fb))

/-- Models `FileAnalyzer.compare(path_a, path_b)`.  The scratch root
(`tempfile.TemporaryDirectory`) is assumed usable — its failure is the
one fatal setup condition and precedes everything modelled here.  The
progress callback is observational and omitted.  `none` models `compare`
raising (which happens only at an unguarded `os.path.getsize`);
`some` is the returned result, with `summary["total"]` set after the
loop to `total_files = len(all_keys)`. -/
def compare (srcA srcB : Source) : Option CompareResult :=
  let fa := extract_or_walk srcA
  let fb := extract_or_walk srcB
  let allKeys := unionKeys fa fb
  match compareFold fa fb allKeys with
  | none => none
  | some (s, items) =>
    some { summary := { s with total := allKeys.length }, details := items }

/-! Helper lemmas -/

theorem seqSimilarity_eval (a b : List Nat) (la lb m : Nat)
    (hla : a.length = la) (hlb : b.length = lb)
    (h : matchTotal a b (la + lb + 1) 0 la 0 lb = m) (hz : la + lb ≠ 0) :
    seqSimilarity a b = 2 * m / ((la + lb : Nat) : ℚ) := by
  unfold seqSimilarity
  rw [hla, hlb, h, if_neg hz]

theorem lookupPM_mem {m : PathMap} {k : Path} {v : FileState}
    (h : lookupPM m k = some v) : (k, v) ∈ m := by
  induction m with
  | nil => simp [lookupPM] at h
  | cons e rest ih =>
    obtain ⟨a, b⟩ := e
    simp only [lookupPM] at h
    split at h
    · rename_i hak
      subst hak
      obtain rfl : b = v := Option.some.inj h
      exact List.mem_cons_self _ _
    · exact List.mem_cons_of_mem _ (ih h)

theorem mem_keysOf_lookup {m : PathMap} {k : Path}
    (h : k ∈ keysOf m) : ∃ v, lookupPM m k = some v := by
  induction m with
  | nil => simp [keysOf] at h
  | cons e rest ih =>
    obtain ⟨a, b⟩ := e
    by_cases hak : a = k
    · exact ⟨b, by simp [lookupPM, hak]⟩
    · have hk : k ∈ keysOf rest := by
        rcases List.mem_cons.mp h with h1 | h1
        · exact absurd h1.symm hak
        · exact h1
      obtain ⟨v, hv⟩ := ih hk
      exact ⟨v, by simp [lookupPM, hak, hv]⟩

theorem sizeOf?_isSome {m : PathMap} {k : Path}
    (h : ∀ e ∈ m, (e.2.size).isSome = true) :
    (sizeOf? (lookupPM m k)).isSome = true := by
  cases hl : lookupPM m k with
  | none => simp [sizeOf?]
  | some st => simpa [sizeOf?] using h _ (lookupPM_mem hl)

theorem processKey_isSome {fa fb : PathMap} {k : Path}
    (ha : ∀ e ∈ fa, (e.2.size).isSome = true)
    (hb : ∀ e ∈ fb, (e.2.size).isSome = true) :
    (processKey fa fb k).isSome = true := by
  obtain ⟨sa, hsa⟩ := Option.isSome_iff_exists.mp (sizeOf?_isSome (k := k) ha)
  obtain ⟨sb, hsb⟩ := Option.isSome_iff_exists.mp (sizeOf?_isSome (k := k) hb)
  simp [processKey, hsa, hsb]

theorem processKey_eq_buildItem {fa fb : PathMap} {k : Path} {it : Item} {br : Branch}
    (h : processKey fa fb k = some (it, br)) :
    ∃ sa sb, sizeOf? (lookupPM fa k) = some sa ∧ sizeOf? (lookupPM fb k) = some sb ∧
      (it, br) = buildItem k (lookupPM fa k) (lookupPM fb k) sa sb := by
  unfold processKey at h
  cases hsa : sizeOf? (lookupPM fa k) with
  | none => rw [hsa] at h; simp at h
  | some sa =>
    cases hsb : sizeOf? (lookupPM fb k) with
    | none => rw [hsa, hsb] at h; simp at h
    | some sb =>
      rw [hsa, hsb] at h
      simp only [Option.some.injEq] at h
      exact ⟨sa, sb, rfl, rfl, h.symm⟩

/-- The `type_category` string assigned in the branch of each `Branch`. -/
def catOf : Branch → String
  | .same => "same"
  | .diff => "diff"
  | .added => "added"
  | .deleted => "deleted"
  | .unknown => "unknown"

theorem buildItem_cat (rel : Path) (a? b? : Option FileState) (sa sb : Nat) :
    ((buildItem rel a? b? sa sb).1).type_category = catOf (buildItem rel a? b? sa sb).2 := by
  cases a? with
  | none => cases b? <;> rfl
  | some stA =>
    cases b? with
    | none => rfl
    | some stB =>
      by_cases h1 : get_file_hash stA = get_file_hash stB
      · simp [buildItem, h1, catOf]
      · by_cases h2 : (is_text_file stA && is_text_file stB) = true
        · simp [buildItem, h1, h2, catOf]
        · simp [buildItem, h1, h2, catOf]

theorem buildItem_unknown {rel : Path} {a? b? : Option FileState} {sa sb : Nat}
    (h : (buildItem rel a? b? sa sb).2 = Branch.unknown) : a? = none ∧ b? = none := by
  cases a? with
  | none =>
    cases b? with
    | none => exact ⟨rfl, rfl⟩
    | some stB => simp [buildItem] at h
  | some stA =>
    cases b? with
    | none => simp [buildItem] at h
    | some stB =>
      by_cases h1 : get_file_hash stA = get_file_hash stB
      · simp [buildItem, h1] at h
      · by_cases h2 : (is_text_file stA && is_text_file stB) = true
        · simp [buildItem, h1, h2] at h
        · simp [buildItem, h1, h2] at h

theorem processKey_cat {fa fb : PathMap} {k : Path} {it : Item} {br : Branch}
    (h : processKey fa fb k = some (it, br)) : it.type_category = catOf br := by
  obtain ⟨sa, sb, _, _, heq⟩ := processKey_eq_buildItem h
  have h1 := buildItem_cat k (lookupPM fa k) (lookupPM fb k) sa sb
  rw [← heq] at h1
  exact h1

theorem processKey_cat_known {fa fb : PathMap} {k : Path} {it : Item} {br : Branch}
    (hk : k ∈ keysOf fa ∨ k ∈ keysOf fb)
    (h : processKey fa fb k = some (it, br)) :
    it.type_category = "same" ∨ it.type_category = "diff" ∨
      it.type_category = "added" ∨ it.type_category = "deleted" := by
  obtain ⟨sa, sb, _, _, heq⟩ := processKey_eq_buildItem h
  have hcat := processKey_cat h
  cases br with
  | same => exact Or.inl hcat
  | diff => exact Or.inr (Or.inl hcat)
  | added => exact Or.inr (Or.inr (Or.inl hcat))
  | deleted => exact Or.inr (Or.inr (Or.inr hcat))
  | unknown =>
    have hbu : (buildItem k (lookupPM fa k) (lookupPM fb k) sa sb).2 = Branch.unknown := by
      rw [← heq]
    obtain ⟨hfa, hfb⟩ := buildItem_unknown hbu
    rcases hk with hk | hk
    · obtain ⟨v, hv⟩ := mem_keysOf_lookup hk
      rw [hv] at hfa
      cases hfa
    · obtain ⟨v, hv⟩ := mem_keysOf_lookup hk
      rw [hv] at hfb
      cases hfb

theorem compareFold_isSome {fa fb : PathMap} (ks : List Path)
    (ha : ∀ e ∈ fa, (e.2.size).isSome = true)
    (hb : ∀ e ∈ fb, (e.2.size).isSome = true) :
    ∃ s items, compareFold fa fb ks = some (s, items) := by
  induction ks with
  | nil => exact ⟨_, _, rfl⟩
  | cons k ks ih =>
    obtain ⟨p, hp⟩ := Option.isSome_iff_exists.mp (processKey_isSome (k := k) ha hb)
    obtain ⟨it, br⟩ := p
    obtain ⟨s, items, hfold⟩ := ih
    exact ⟨bump s br, it :: items, by simp [compareFold, hp, hfold]⟩

/-- The loop invariant of `compareFold`: one record per key, counters are
category counts, `total` untouched, and every record was produced by
`processKey` on one of the keys. -/
theorem compareFold_spec {fa fb : PathMap} {ks : List Path} {s : Summary} {items : List Item}
    (h : compareFold fa fb ks = some (s, items)) :
    items.length = ks.length ∧ s.total = 0 ∧
    s.same = items.countP (fun it => it.type_category == "same") ∧
    s.diff = items.countP (fun it => it.type_category == "diff") ∧
    s.added = items.countP (fun it => it.type_category == "added") ∧
    s.deleted = items.countP (fun it => it.type_category == "deleted") ∧
    ∀ it ∈ items, ∃ k ∈ ks, ∃ br, processKey fa fb k = some (it, br) := by
  induction ks generalizing s items with
  | nil =>
    simp only [compareFold, Option.some.injEq] at h
    obtain ⟨h1, h2⟩ := Prod.mk.inj (h.symm)
    subst h1
    subst h2
    simp
  | cons k ks ih =>
    simp only [compareFold] at h
    cases hpk : processKey fa fb k with
    | none => rw [hpk] at h; cases h
    | some p =>
      obtain ⟨it0, br⟩ := p
      rw [hpk] at h
      cases hfold : compareFold fa fb ks with
      | none => rw [hfold] at h; cases h
      | some q =>
        obtain ⟨s', items'⟩ := q
        rw [hfold] at h
        simp only [Option.some.injEq] at h
        obtain ⟨hs, hitems⟩ := Prod.mk.inj h.symm
        subst hs
        subst hitems
        obtain ⟨ihl, iht, ihsame, ihdiff, ihadd, ihdel, ihmem⟩ := ih hfold
        have hcat : it0.type_category = catOf br := processKey_cat hpk
        refine ⟨by simp [ihl], ?_, ?_, ?_, ?_, ?_, ?_⟩
        · cases br <;> simp [bump, iht]
        · cases br <;>
            simp [bump, List.countP_cons, hcat, catOf, ihsame]
        · cases br <;>
            simp [bump, List.countP_cons, hcat, catOf, ihdiff]
        · cases br <;>
            simp [bump, List.countP_cons, hcat, catOf, ihadd]
        · cases br <;>
            simp [bump, List.countP_cons, hcat, catOf, ihdel]
        · intro it hit
          rcases List.mem_cons.mp hit with hit | hit
          · exact ⟨k, List.mem_cons_self _ _, br, by rw [← hit] at hpk; exact hpk⟩
          · obtain ⟨k', hk', br', hpk'⟩ := ihmem it hit
            exact ⟨k', List.mem_cons_of_mem _ hk', br', hpk'⟩

theorem countP_partition (items : List Item)
    (h : ∀ it ∈ items, it.type_category = "same" ∨ it.type_category = "diff" ∨
      it.type_category = "added" ∨ it.type_category = "deleted") :
    items.countP (fun it => it.type_category == "same") +
    items.countP (fun it => it.type_category == "diff") +
    items.countP (fun it => it.type_category == "added") +
    items.countP (fun it => it.type_category == "deleted") = items.length := by
  induction items with
  | nil => simp
  | cons it items ih =>
    have hih := ih (fun x hx => h x (List.mem_cons_of_mem _ hx))
    rcases h it (List.mem_cons_self _ _) with hc | hc | hc | hc <;>
      simp [List.countP_cons, hc] <;> omega

theorem length_insertPath (x : Path) (l : List Path) :
    (insertPath x l).length = l.length + 1 := by
  induction l with
  | nil => rfl
  | cons y ys ih =>
    simp only [insertPath]
    split <;> simp [ih]

theorem length_sortPaths (l : List Path) : (sortPaths l).length = l.length := by
  induction l with
  | nil => rfl
  | cons x xs ih => simp [sortPaths, length_insertPath, ih]

theorem mem_insertPath {y x : Path} {l : List Path} :
    y ∈ insertPath x l ↔ y = x ∨ y ∈ l := by
  induction l with
  | nil => simp [insertPath]
  | cons z zs ih =>
    simp only [insertPath]
    split
    · simp
    · simp only [List.mem_cons, ih]
      tauto

theorem mem_sortPaths {y : Path} {l : List Path} : y ∈ sortPaths l ↔ y ∈ l := by
  induction l with
  | nil => simp [sortPaths]
  | cons x xs ih => simp [sortPaths, mem_insertPath, ih]

theorem mem_unionKeys {fa fb : PathMap} {k : Path} :
    k ∈ unionKeys fa fb ↔ k ∈ keysOf fa ∨ k ∈ keysOf fb := by
  simp [unionKeys, mem_sortPaths, List.mem_dedup]

theorem length_unionKeys (fa fb : PathMap) :
    (unionKeys fa fb).length = (List.dedup (keysOf fa ++ keysOf fb)).length :=
  length_sortPaths _

theorem keysOf_nil : keysOf [] = [] := rfl

theorem processKey_onlyB {fb : PathMap} {k : Path} {st : FileState}
    (hb : lookupPM fb k = some st) (hs : (st.size).isSome = true) :
    ∃ it, processKey [] fb k = some (it, Branch.added) ∧ it.type_category = "added" := by
  obtain ⟨n, hn⟩ := Option.isSome_iff_exists.mp hs
  refine ⟨(buildItem k none (some st) 0 n).1, ?_, rfl⟩
  simp only [processKey, lookupPM, sizeOf?, hb, hn]
  rfl

theorem processKey_onlyA {fa : PathMap} {k : Path} {st : FileState}
    (ha : lookupPM fa k = some st) (hs : (st.size).isSome = true) :
    ∃ it, processKey fa [] k = some (it, Branch.deleted) ∧ it.type_category = "deleted" := by
  obtain ⟨n, hn⟩ := Option.isSome_iff_exists.mp hs
  refine ⟨(buildItem k (some st) none n 0).1, ?_, rfl⟩
  simp only [processKey, lookupPM, sizeOf?, ha, hn]
  rfl

theorem compare_eq {srcA srcB : Source} {r : CompareResult}
    (h : compare srcA srcB = some r) :
    ∃ s items,
      compareFold (extract_or_walk srcA) (extract_or_walk srcB)
          (unionKeys (extract_or_walk srcA) (extract_or_walk srcB)) = some (s, items) ∧
      r.details = items ∧
      r.summary = { s with
        total := (unionKeys (extract_or_walk srcA) (extract_or_walk srcB)).length } := by
  unfold compare at h
  simp only [] at h
  cases hfold : compareFold (extract_or_walk srcA) (extract_or_walk srcB)
      (unionKeys (extract_or_walk srcA) (extract_or_walk srcB)) with
  | none => rw [hfold] at h; cases h
  | some q =>
    obtain ⟨s, items⟩ := q
    rw [hfold] at h
    simp only [Option.some.injEq] at h
    exact ⟨s, items, rfl, by rw [← h], by rw [← h]⟩

theorem dot_mem_fmtPercentChars (q : ℚ) : '.' ∈ fmtPercentChars q := by
  unfold fmtPercentChars
  simp

theorem fmtPercent_ne_of_no_dot (q : ℚ) (s : String) (h : '.' ∉ s.data) :
    fmtPercent q ≠ s := by
  intro he
  apply h
  rw [← he]
  exact dot_mem_fmtPercentChars q

/-! Claim C1 -/

/-- A file present on side A whose stat succeeds but whose read fails. -/
def c1FileA : FileState := { size := some 3, bytes := none, mimeText := false }

def c1FileB : FileState := { size := some 3, bytes := none, mimeText := false }

def c1SrcA : Source := { path := "a".data, zipExtract := none, dirWalk := [("f".data, c1FileA)] }

def c1SrcB : Source := { path := "b".data, zipExtract := none, dirWalk := [("f".data, c1FileB)] }

/-- C1: the claim fails on the code.  When hashing fails on both sides,
`get_file_hash` returns Python `None` for both files, and `compare` tests
`hash_a == hash_b`, which is TRUE for two `None`s — so the record is
classified `same` (with similarity 1.0), never `diff`.  Here both digests
are unavailable, yet the single record comes out `same`. -/
theorem c1_both_digests_unavailable_yields_same :
    get_file_hash c1FileA = none ∧ get_file_hash c1FileB = none ∧
    (compare c1SrcA c1SrcB).map
        (fun r => (r.details.map fun it => (it.type_category, it.status, it.similarity),
                   r.summary.same, r.summary.diff))
      = some ([("same", "相同", (1 : ℚ))], 1, 0) :=
  ⟨rfl, rfl, rfl⟩

/-! Claim C2 -/

/-- Side A's file: unreadable, 3 bytes on disk. -/
def c2FileA : FileState := { size := some 3, bytes := none, mimeText := false }

/-- Side B's file: unreadable, 5 bytes on disk. -/
def c2FileB : FileState := { size := some 5, bytes := none, mimeText := false }

def c2SrcA : Source := { path := "a".data, zipExtract := none, dirWalk := [("f".data, c2FileA)] }

def c2SrcB : Source := { path := "b".data, zipExtract := none, dirWalk := [("f".data, c2FileB)] }

/-- C2: the claim fails on the code, through the same defect as C1.
Two files whose hashing fails on both sides are classified `same` even
when their sizes differ: here the `same` record has `size_a = 3`,
`size_b = 5` and `size_diff = 2 ≠ 0`. -/
theorem c2_same_record_with_unequal_sizes :
    (compare c2SrcA c2SrcB).map
        (fun r => r.details.map fun it =>
          (it.type_category, it.size_a, it.size_b, it.size_diff))
      = some [("same", 3, 5, (2 : Int))] :=
  rfl

/-! Claim C3 -/

/-- A readable text file with content `"aaxbb"` (code points). -/
def c3FileX : FileState := { size := some 5, bytes := some [97, 97, 120, 98, 98], mimeText := false }

/-- A readable text file with content `"bbaabb"`. -/
def c3FileY : FileState :=
  { size := some 6, bytes := some [98, 98, 97, 97, 98, 98], mimeText := false }

/-- C3: counterexample — the similarity ratio is NOT symmetric.
For the readable text files with contents `"aaxbb"` and `"bbaabb"`,
`difflib.SequenceMatcher`'s tie-breaking (earliest match in the first
sequence) makes the two directions disagree: `8/11` one way, `4/11` the
other (exactly what CPython's difflib returns on these strings). -/
theorem c3_similarity_not_symmetric :
    get_text_similarity c3FileX c3FileY = 8 / 11 ∧
    get_text_similarity c3FileY c3FileX = 4 / 11 ∧
    get_text_similarity c3FileX c3FileY ≠ get_text_similarity c3FileY c3FileX := by
  have e1 : get_text_similarity c3FileX c3FileY = 8 / 11 := by
    show seqSimilarity [97, 97, 120, 98, 98] [98, 98, 97, 97, 98, 98] = 8 / 11
    rw [seqSimilarity_eval [97, 97, 120, 98, 98] [98, 98, 97, 97, 98, 98] 5 6 4 rfl rfl rfl
      (by norm_num)]
    norm_num
  have e2 : get_text_similarity c3FileY c3FileX = 4 / 11 := by
    show seqSimilarity [98, 98, 97, 97, 98, 98] [97, 97, 120, 98, 98] = 4 / 11
    rw [seqSimilarity_eval [98, 98, 97, 97, 98, 98] [97, 97, 120, 98, 98] 6 5 2 rfl rfl rfl
      (by norm_num)]
    norm_num
  refine ⟨e1, e2, ?_⟩
  rw [e1, e2]
  norm_num

/-- C3 (amended): the similarity computation is deterministic and both
directions agree whenever the two files hold identical bytes (and whenever
either read fails, both directions return the `0.0` fallback); but for
general distinct contents the ratio is not symmetric. -/
theorem c3_similarity_symmetric_on_equal_content (st1 st2 : FileState)
    (h : st1.bytes = st2.bytes) :
    get_text_similarity st1 st2 = get_text_similarity st2 st1 := by
  unfold get_text_similarity
  rw [h]

/-- Witness for C3 (amended): two distinct file states with identical
content `"hi"`; the similarity is the same in both directions. -/
theorem c3_similarity_symmetric_on_equal_content_witness :
    get_text_similarity { size := some 2, bytes := some [104, 105], mimeText := false }
        { size := some 7, bytes := some [104, 105], mimeText := true } =
      get_text_similarity { size := some 7, bytes := some [104, 105], mimeText := true }
        { size := some 2, bytes := some [104, 105], mimeText := false } :=
  c3_similarity_symmetric_on_equal_content
    { size := some 2, bytes := some [104, 105], mimeText := false }
    { size := some 7, bytes := some [104, 105], mimeText := true } rfl

/-! Claim C5 -/

/-- A file visible to the directory walk whose content is readable but
whose `os.path.getsize` raises (e.g. it is a dangling symlink or was
removed between the walk and the size inspection). -/
def c5BadFile : FileState := { size := none, bytes := some [97], mimeText := false }

def c5SrcA : Source := { path := "a".data, zipExtract := none, dirWalk := [("g".data, c5BadFile)] }

def c5SrcB : Source := { path := "b".data, zipExtract := none, dirWalk := [] }

/-- C5: counterexample — a per-file error CAN abort the whole comparison.
`os.path.getsize` is called outside any `try` block, so a file whose size
inspection fails makes `compare` raise instead of returning a result:
here the one file's `getsize` fails (while its content is readable) and
`compare` returns no `ComparisonResult` at all. -/
theorem c5_size_inspection_failure_aborts :
    c5BadFile.size = none ∧ (c5BadFile.bytes).isSome = true ∧
    compare c5SrcA c5SrcB = none :=
  ⟨rfl, rfl, rfl⟩

/-- C5 (amended): no error during hashing or text reading aborts the
comparison — whenever every walked file's size inspection succeeds,
`compare` returns a complete result, even if every hash and every text
read fails; but a failure of the unguarded `os.path.getsize` call
propagates and aborts the run (in addition to scratch-root setup
failure). -/
theorem c5_hash_and_text_errors_absorbed (srcA srcB : Source)
    (ha : ∀ e ∈ extract_or_walk srcA, (e.2.size).isSome = true)
    (hb : ∀ e ∈ extract_or_walk srcB, (e.2.size).isSome = true) :
    ∃ r, compare srcA srcB = some r := by
  obtain ⟨s, items, hfold⟩ := compareFold_isSome _ ha hb
  refine ⟨⟨{ s with total := (unionKeys (extract_or_walk srcA) (extract_or_walk srcB)).length }, items⟩, ?_⟩
  unfold compare
  simp only []
  rw [hfold]

/-- Witness for C5 (amended): both sides hold files whose hashing and
text reading fail (`bytes = none`) but whose sizes are available;
`compare` still returns a result. -/
theorem c5_hash_and_text_errors_absorbed_witness :
    ∃ r, compare
      { path := "wa".data, zipExtract := none,
        dirWalk := [("u".data, { size := some 4, bytes := none, mimeText := false })] }
      { path := "wb".data, zipExtract := none,
        dirWalk := [("u".data, { size := some 9, bytes := none, mimeText := true })] }
      = some r :=
  c5_hash_and_text_errors_absorbed
    { path := "wa".data, zipExtract := none,
      dirWalk := [("u".data, { size := some 4, bytes := none, mimeText := false })] }
    { path := "wb".data, zipExtract := none,
      dirWalk := [("u".data, { size := some 9, bytes := none, mimeText := true })] }
    (by decide) (by decide)

/-! Claim C4 -/

/-- C4: the similarity field is `1.0` with label `"100%"` for Same records,
the computed ratio with its percentage label for Modified records with both
sides text-like, `0.0` with the sentinel `"Hash不同"` for Modified-binary
records, and the initialized `0.0`/`"0%"` for Added and Deleted records;
and each 0.0-sentinel label (`"0%"`, `"Hash不同"`) differs from `"100%"`
and from every percentage string the formatter can produce (every
`fmtPercent` output contains a decimal point, the sentinels do not), so a
renderer can tell "0% similar" (`"0.0%"`) from "not computed". -/
theorem c4_similarity_fields_and_labels :
    (∀ (rel : Path) (a? b? : Option FileState) (sa sb : Nat) (it : Item) (br : Branch),
      buildItem rel a? b? sa sb = (it, br) →
        (it.type_category = "same" → it.similarity = 1 ∧ it.similarity_str = "100%") ∧
        (it.type_category = "added" ∨ it.type_category = "deleted" →
          it.similarity = 0 ∧ it.similarity_str = "0%") ∧
        (it.type_category = "diff" →
          ∃ stA stB, a? = some stA ∧ b? = some stB ∧
            (((is_text_file stA && is_text_file stB) = true ∧
                it.similarity = get_text_similarity stA stB ∧
                it.similarity_str = fmtPercent (get_text_similarity stA stB)) ∨
              ((is_text_file stA && is_text_file stB) = false ∧
                it.similarity = 0 ∧ it.similarity_str = "Hash不同")))) ∧
    (∀ q : ℚ, fmtPercent q ≠ "0%" ∧ fmtPercent q ≠ "100%" ∧ fmtPercent q ≠ "Hash不同") ∧
    ("0%" : String) ≠ "100%" ∧ ("0%" : String) ≠ "Hash不同" := by
  refine ⟨?_, ?_, by decide, by decide⟩
  · intro rel a? b? sa sb it br heq
    cases a? with
    | none =>
      cases b? with
      | none =>
        obtain ⟨h3, _⟩ := Prod.mk.inj heq
        subst h3
        refine ⟨fun h => absurd h (by decide : ¬("unknown" = "same")), fun h => ?_,
          fun h => absurd h (by decide : ¬("unknown" = "diff"))⟩
        rcases h with h | h
        · exact absurd h (by decide : ¬("unknown" = "added"))
        · exact absurd h (by decide : ¬("unknown" = "deleted"))
      | some stB =>
        obtain ⟨h3, _⟩ := Prod.mk.inj heq
        subst h3
        exact ⟨fun h => absurd h (by decide : ¬("added" = "same")), fun _ => ⟨rfl, rfl⟩,
          fun h => absurd h (by decide : ¬("added" = "diff"))⟩
    | some stA =>
      cases b? with
      | none =>
        obtain ⟨h3, _⟩ := Prod.mk.inj heq
        subst h3
        exact ⟨fun h => absurd h (by decide : ¬("deleted" = "same")), fun _ => ⟨rfl, rfl⟩,
          fun h => absurd h (by decide : ¬("deleted" = "diff"))⟩
      | some stB =>
        simp only [buildItem] at heq
        split at heq
        · obtain ⟨h3, _⟩ := Prod.mk.inj heq
          subst h3
          refine ⟨fun _ => ⟨rfl, rfl⟩, fun h => ?_,
            fun h => absurd h (by decide : ¬("same" = "diff"))⟩
          rcases h with h | h
          · exact absurd h (by decide : ¬("same" = "added"))
          · exact absurd h (by decide : ¬("same" = "deleted"))
        · split at heq
          · rename_i h2
            obtain ⟨h3, _⟩ := Prod.mk.inj heq
            subst h3
            refine ⟨fun h => absurd h (by decide : ¬("diff" = "same")), fun h => ?_,
              fun _ => ⟨stA, stB, rfl, rfl, Or.inl ⟨h2, rfl, rfl⟩⟩⟩
            rcases h with h | h
            · exact absurd h (by decide : ¬("diff" = "added"))
            · exact absurd h (by decide : ¬("diff" = "deleted"))
          · rename_i h2
            have h2' : (is_text_file stA && is_text_file stB) = false := by
              revert h2
              cases (is_text_file stA && is_text_file stB) <;> simp
            obtain ⟨h3, _⟩ := Prod.mk.inj heq
            subst h3
            refine ⟨fun h => absurd h (by decide : ¬("diff" = "same")), fun h => ?_,
              fun _ => ⟨stA, stB, rfl, rfl, Or.inr ⟨h2', rfl, rfl⟩⟩⟩
            rcases h with h | h
            · exact absurd h (by decide : ¬("diff" = "added"))
            · exact absurd h (by decide : ¬("diff" = "deleted"))
  · intro q
    exact ⟨fmtPercent_ne_of_no_dot q "0%" (by decide),
      fmtPercent_ne_of_no_dot q "100%" (by decide),
      fmtPercent_ne_of_no_dot q "Hash不同" (by decide)⟩

/-- Witness for C4: the Added branch at a concrete input yields the
initialized `0.0`/`"0%"` pair, and the formatter can never produce the
`"0%"` sentinel. -/
theorem c4_similarity_fields_and_labels_witness :
    (buildItem "w".data none
        (some { size := some 7, bytes := none, mimeText := false }) 0 7).1.similarity = 0 ∧
    (buildItem "w".data none
        (some { size := some 7, bytes := none, mimeText := false }) 0 7).1.similarity_str = "0%" ∧
    fmtPercent 0 ≠ "0%" := by
  have h := c4_similarity_fields_and_labels
  have hb := h.1 "w".data none (some { size := some 7, bytes := none, mimeText := false }) 0 7
    (buildItem "w".data none
      (some { size := some 7, bytes := none, mimeText := false }) 0 7).1
    (buildItem "w".data none
      (some { size := some 7, bytes := none, mimeText := false }) 0 7).2 rfl
  have hadd := hb.2.1 (Or.inl rfl)
  exact ⟨hadd.1, hadd.2, (h.2.1 0).1⟩

/-! Claim C6 -/

/-- Decoding a whole byte list as strict UTF-8: `true` iff the list is a
clean concatenation of valid encoded characters. -/
def utf8ValidAll : Nat → Bytes → Bool
  | _, [] => true
  | 0, _ => false
  | fuel + 1, bs =>
    match utf8ParseChar bs with
    | some (_, c) => utf8ValidAll fuel (bs.drop c)
    | none => false

/-- Modelled from the spec's words (for comparison with the source-derived
`is_text_file` fallback): "attempt to decode the first 512 bytes as UTF-8
text; success ⇒ text, failure ⇒ binary" — the 512-BYTE prefix of the file
decodes successfully as UTF-8. -/
def specFirst512BytesDecode (bs : Bytes) : Bool :=
  utf8ValidAll 512 (bs.take 512)

/-- The C6 counterexample file: 300 copies of the two-byte character `é`
(`0xC3 0xA9`) followed by the invalid byte `0xFF`, with no text MIME
guess.  Its first 512 bytes are 256 complete `é` characters. -/
def c6Bytes : Bytes := (List.replicate 300 ([195, 169] : Bytes)).flatten ++ [255]

def c6File : FileState := { size := some 601, bytes := some c6Bytes, mimeText := false }

/-- C6: counterexample — the claim's biconditional over the first 512
BYTES is false on the code.  The code's fallback is `f.read(512)` in text
mode, which reads 512 CHARACTERS: on a file of 300 two-byte characters
followed by an invalid byte, the first 512 bytes decode successfully as
UTF-8 (256 complete characters), yet `is_text_file` reads past byte 512
toward its 512th character, hits the invalid byte, and returns `false`. -/
theorem c6_first_512_bytes_claim_refuted :
    c6File.mimeText = false ∧
    specFirst512BytesDecode c6Bytes = true ∧
    is_text_file c6File = false :=
  ⟨rfl, by decide, by decide⟩

/-- C6 (amended): `is_text_file` returns `true` whenever the
MIME-by-extension lookup reports a text family; otherwise it returns
`true` exactly when the file can be opened and its initial bounded UTF-8
read succeeds — `f.read(512)` with strict `utf-8` decoding, which reads
512 CHARACTERS (not bytes), stopping early at end of file — and `false`
when that read (or the open) fails. -/
theorem c6_is_text_file_mime_then_utf8 (st : FileState) :
    (st.mimeText = true → is_text_file st = true) ∧
    (st.mimeText = false →
      (is_text_file st = true ↔ ∃ bs, st.bytes = some bs ∧ utf8ReadOk 512 bs = true)) := by
  constructor
  · intro h
    simp [is_text_file, h]
  · intro h
    cases hb : st.bytes with
    | none => simp [is_text_file, h, hb]
    | some bs => simp [is_text_file, h, hb]

/-- Witness for C6: a MIME-text file is text regardless of content; a
UTF-8 readable file without a text MIME type is text; a file starting
with the invalid byte `0xFF` is binary. -/
theorem c6_is_text_file_mime_then_utf8_witness :
    is_text_file { size := some 2, bytes := none, mimeText := true } = true ∧
    is_text_file { size := some 2, bytes := some [104, 105], mimeText := false } = true ∧
    is_text_file { size := some 1, bytes := some [255], mimeText := false } = false :=
  ⟨(c6_is_text_file_mime_then_utf8 _).1 rfl,
   ((c6_is_text_file_mime_then_utf8 _).2 rfl).mpr ⟨[104, 105], rfl, by decide⟩,
   by decide⟩

/-! Claim C7 -/

/-- C7: reconciliation completeness — the number of emitted records equals
the number of distinct keys in the union of the two path maps,
`summary.total` equals that count, and `total = same + diff + added +
deleted` (the four `type_category` counters). -/
theorem c7_reconciliation_completeness (srcA srcB : Source) (r : CompareResult)
    (h : compare srcA srcB = some r) :
    r.details.length =
      (List.dedup (keysOf (extract_or_walk srcA) ++ keysOf (extract_or_walk srcB))).length ∧
    r.summary.total = r.details.length ∧
    r.summary.total = r.summary.same + r.summary.diff + r.summary.added + r.summary.deleted := by
  obtain ⟨s, items, hfold, hdet, hsum⟩ := compare_eq h
  obtain ⟨hlen, _, hsame, hdiff, hadd, hdel, hmem⟩ := compareFold_spec hfold
  have hcats : ∀ it ∈ items, it.type_category = "same" ∨ it.type_category = "diff" ∨
      it.type_category = "added" ∨ it.type_category = "deleted" := by
    intro it hit
    obtain ⟨k, hk, br, hpk⟩ := hmem it hit
    exact processKey_cat_known (mem_unionKeys.mp hk) hpk
  have hpart := countP_partition items hcats
  have htot' : r.summary.total =
      (unionKeys (extract_or_walk srcA) (extract_or_walk srcB)).length := by rw [hsum]
  have hsame' : r.summary.same = s.same := by rw [hsum]
  have hdiff' : r.summary.diff = s.diff := by rw [hsum]
  have hadd' : r.summary.added = s.added := by rw [hsum]
  have hdel' : r.summary.deleted = s.deleted := by rw [hsum]
  refine ⟨?_, ?_, ?_⟩
  · rw [hdet, hlen]
    exact length_unionKeys _ _
  · rw [htot', hdet, hlen]
  · rw [htot', hsame', hdiff', hadd', hdel', hsame, hdiff, hadd, hdel]
    omega

/-- Witness for C7: a run with one record (one file only on side A). -/
theorem c7_reconciliation_completeness_witness :
    ({ summary := { same := 0, diff := 0, added := 0, deleted := 1, total := 1 },
       details := [{ path := "u".data, status := "已删除", similarity := 0,
                     similarity_str := "0%", size_a := 4, size_b := 0, size_diff := -4,
                     type_category := "deleted" }] } : CompareResult).details.length =
      (List.dedup (keysOf (extract_or_walk
          { path := "wa".data, zipExtract := none,
            dirWalk := [("u".data, { size := some 4, bytes := none, mimeText := false })] }) ++
        keysOf (extract_or_walk
          { path := "wb".data, zipExtract := none, dirWalk := [] }))).length ∧
    (1 : Nat) = 1 ∧ (1 : Nat) = 0 + 0 + 0 + 1 := by
  have h := c7_reconciliation_completeness
    { path := "wa".data, zipExtract := none,
      dirWalk := [("u".data, { size := some 4, bytes := none, mimeText := false })] }
    { path := "wb".data, zipExtract := none, dirWalk := [] }
    { summary := { same := 0, diff := 0, added := 0, deleted := 1, total := 1 },
      details := [{ path := "u".data, status := "已删除", similarity := 0,
                    similarity_str := "0%", size_a := 4, size_b := 0, size_diff := -4,
                    type_category := "deleted" }] }
    rfl
  exact ⟨h.1, h.2.1, h.2.2⟩

/-! Claim C8 -/

/-- C8: partition exhaustiveness — every emitted record's `type_category`
is exactly one of `"same"`, `"diff"`, `"added"`, `"deleted"` (the
initialized `"unknown"` never survives into a returned result), and each
summary counter equals the number of records in that category. -/
theorem c8_partition_exhaustive_counts (srcA srcB : Source) (r : CompareResult)
    (h : compare srcA srcB = some r) :
    (∀ it ∈ r.details, it.type_category = "same" ∨ it.type_category = "diff" ∨
      it.type_category = "added" ∨ it.type_category = "deleted") ∧
    r.summary.same = r.details.countP (fun it => it.type_category == "same") ∧
    r.summary.diff = r.details.countP (fun it => it.type_category == "diff") ∧
    r.summary.added = r.details.countP (fun it => it.type_category == "added") ∧
    r.summary.deleted = r.details.countP (fun it => it.type_category == "deleted") := by
  obtain ⟨s, items, hfold, hdet, hsum⟩ := compare_eq h
  obtain ⟨_, _, hsame, hdiff, hadd, hdel, hmem⟩ := compareFold_spec hfold
  have hsame' : r.summary.same = s.same := by rw [hsum]
  have hdiff' : r.summary.diff = s.diff := by rw [hsum]
  have hadd' : r.summary.added = s.added := by rw [hsum]
  have hdel' : r.summary.deleted = s.deleted := by rw [hsum]
  refine ⟨?_, ?_, ?_, ?_, ?_⟩
  · intro it hit
    rw [hdet] at hit
    obtain ⟨k, hk, br, hpk⟩ := hmem it hit
    exact processKey_cat_known (mem_unionKeys.mp hk) hpk
  · rw [hsame', hdet, hsame]
  · rw [hdiff', hdet, hdiff]
  · rw [hadd', hdet, hadd]
  · rw [hdel', hdet, hdel]

/-- Witness for C8: a run with one `added` record; the category is one of
the four and the counters match the partition sizes. -/
theorem c8_partition_exhaustive_counts_witness :
    (∀ it ∈ ({ summary := { same := 0, diff := 0, added := 1, deleted := 0, total := 1 },
               details := [{ path := "v".data, status := "新增", similarity := 0,
                             similarity_str := "0%", size_a := 0, size_b := 9, size_diff := 9,
                             type_category := "added" }] } : CompareResult).details,
      it.type_category = "same" ∨ it.type_category = "diff" ∨
        it.type_category = "added" ∨ it.type_category = "deleted") ∧
    (0 : Nat) = List.countP (fun it => it.type_category == "same")
      [({ path := "v".data, status := "新增", similarity := 0, similarity_str := "0%",
          size_a := 0, size_b := 9, size_diff := 9, type_category := "added" } : Item)] ∧
    (1 : Nat) = List.countP (fun it => it.type_category == "added")
      [({ path := "v".data, status := "新增", similarity := 0, similarity_str := "0%",
          size_a := 0, size_b := 9, size_diff := 9, type_category := "added" } : Item)] := by
  have h := c8_partition_exhaustive_counts
    { path := "xa".data, zipExtract := none, dirWalk := [] }
    { path := "xb".data, zipExtract := none,
      dirWalk := [("v".data, { size := some 9, bytes := none, mimeText := false })] }
    { summary := { same := 0, diff := 0, added := 1, deleted := 0, total := 1 },
      details := [{ path := "v".data, status := "新增", similarity := 0,
                    similarity_str := "0%", size_a := 0, size_b := 9, size_diff := 9,
                    type_category := "added" }] }
    rfl
  exact ⟨h.1, h.2.1, h.2.2.2.1⟩

/-! Claim C9 -/

/-- When side A's map is empty, every record of the run is `added`, the
`added` counter matches the record count, and tha record count is the
number of distinct keys of side B. -/
theorem compare_allAdded {srcA srcB : Source}
    (hfa : extract_or_walk srcA = [])
    (hb : ∀ e ∈ extract_or_walk srcB, (e.2.size).isSome = true) :
    ∃ r, compare srcA srcB = some r ∧
      (∀ it ∈ r.details, it.type_category = "added") ∧
      r.summary.added = r.details.length ∧
      r.details.length = (List.dedup (keysOf (extract_or_walk srcB))).length ∧
      r.summary.same = 0 ∧ r.summary.diff = 0 ∧ r.summary.deleted = 0 := by
  have ha : ∀ e ∈ extract_or_walk srcA, (e.2.size).isSome = true := by
    intro e he
    rw [hfa] at he
    exact absurd he (List.not_mem_nil e)
  obtain ⟨s, items, hfold⟩ :=
    compareFold_isSome (unionKeys (extract_or_walk srcA) (extract_or_walk srcB)) ha hb
  have hcomp : compare srcA srcB = some
      ⟨{ s with total := (unionKeys (extract_or_walk srcA) (extract_or_walk srcB)).length },
       items⟩ := by
    unfold compare
    simp only []
    rw [hfold]
  obtain ⟨hlen, _, hsame, hdiff, _, hdel, hmem⟩ := compareFold_spec hfold
  obtain ⟨_, _, _, _, hadd, _, _⟩ := compareFold_spec hfold
  have hallAdded : ∀ it ∈ items, it.type_category = "added" := by
    intro it hit
    obtain ⟨k, hk, br, hpk⟩ := hmem it hit
    have hk' : k ∈ keysOf (extract_or_walk srcB) := by
      rcases mem_unionKeys.mp hk with hm | hm
      · rw [hfa] at hm
        exact absurd hm (by simp [keysOf])
      · exact hm
    obtain ⟨st, hst⟩ := mem_keysOf_lookup hk'
    have hs := hb (k, st) (lookupPM_mem hst)
    obtain ⟨it', hpk', hcat'⟩ := processKey_onlyB hst hs
    rw [hfa] at hpk
    rw [hpk'] at hpk
    obtain ⟨h1, _⟩ := Prod.mk.inj (Option.some.inj hpk)
    rw [← h1]
    exact hcat'
  refine ⟨_, hcomp, ?_, ?_, ?_, ?_, ?_, ?_⟩
  · intro it hit
    exact hallAdded it hit
  · show s.added = items.length
    rw [hadd]
    exact List.countP_eq_length.mpr (fun a ha' => by rw [hallAdded a ha']; rfl)
  · show items.length = (List.dedup (keysOf (extract_or_walk srcB))).length
    rw [hlen, hfa, length_unionKeys]
    simp [keysOf]
  · show s.same = 0
    rw [hsame]
    exact List.countP_eq_zero.mpr (fun a ha' => by rw [hallAdded a ha']; decide)
  · show s.diff = 0
    rw [hdiff]
    exact List.countP_eq_zero.mpr (fun a ha' => by rw [hallAdded a ha']; decide)
  · show s.deleted = 0
    rw [hdel]
    exact List.countP_eq_zero.mpr (fun a ha' => by rw [hallAdded a ha']; decide)

/-- Mirror of `compare_allAdded`: when side B's map is empty, every record
is `deleted`. -/
theorem compare_allDeleted {srcA srcB : Source}
    (hfb : extract_or_walk srcB = [])
    (ha : ∀ e ∈ extract_or_walk srcA, (e.2.size).isSome = true) :
    ∃ r, compare srcA srcB = some r ∧
      (∀ it ∈ r.details, it.type_category = "deleted") ∧
      r.summary.deleted = r.details.length ∧
      r.details.length = (List.dedup (keysOf (extract_or_walk srcA))).length ∧
      r.summary.same = 0 ∧ r.summary.diff = 0 ∧ r.summary.added = 0 := by
  have hb : ∀ e ∈ extract_or_walk srcB, (e.2.size).isSome = true := by
    intro e he
    rw [hfb] at he
    exact absurd he (List.not_mem_nil e)
  obtain ⟨s, items, hfold⟩ :=
    compareFold_isSome (unionKeys (extract_or_walk srcA) (extract_or_walk srcB)) ha hb
  have hcomp : compare srcA srcB = some
      ⟨{ s with total := (unionKeys (extract_or_walk srcA) (extract_or_walk srcB)).length },
       items⟩ := by
    unfold compare
    simp only []
    rw [hfold]
  obtain ⟨hlen, _, hsame, hdiff, hadd, _, hmem⟩ := compareFold_spec hfold
  obtain ⟨_, _, _, _, _, hdel, _⟩ := compareFold_spec hfold
  have hallDel : ∀ it ∈ items, it.type_category = "deleted" := by
    intro it hit
    obtain ⟨k, hk, br, hpk⟩ := hmem it hit
    have hk' : k ∈ keysOf (extract_or_walk srcA) := by
      rcases mem_unionKeys.mp hk with hm | hm
      · exact hm
      · rw [hfb] at hm
        exact absurd hm (by simp [keysOf])
    obtain ⟨st, hst⟩ := mem_keysOf_lookup hk'
    have hs := ha (k, st) (lookupPM_mem hst)
    obtain ⟨it', hpk', hcat'⟩ := processKey_onlyA hst hs
    rw [hfb] at hpk
    rw [hpk'] at hpk
    obtain ⟨h1, _⟩ := Prod.mk.inj (Option.some.inj hpk)
    rw [← h1]
    exact hcat'
  refine ⟨_, hcomp, ?_, ?_, ?_, ?_, ?_, ?_⟩
  · intro it hit
    exact hallDel it hit
  · show s.deleted = items.length
    rw [hdel]
    exact List.countP_eq_length.mpr (fun a ha' => by rw [hallDel a ha']; rfl)
  · show items.length = (List.dedup (keysOf (extract_or_walk srcA))).length
    rw [hlen, hfb, length_unionKeys]
    simp [keysOf]
  · show s.same = 0
    rw [hsame]
    exact List.countP_eq_zero.mpr (fun a ha' => by rw [hallDel a ha']; decide)
  · show s.diff = 0
    rw [hdiff]
    exact List.countP_eq_zero.mpr (fun a ha' => by rw [hallDel a ha']; decide)
  · show s.added = 0
    rw [hadd]
    exact List.countP_eq_zero.mpr (fun a ha' => by rw [hallDel a ha']; decide)

/-- C9: when one side's archive fails to extract (`ZipFile`/`extractall`
raises), that side's path map is `{}`, the comparison still returns a
result (no run-level failure, provided the other side's files stat
normally), and every file of the other side is reported `added` (when A
failed) or `deleted` (when B failed), with the matching summary counter
equal to the record count, which is the other side's file count. -/
theorem c9_extraction_failure_degrades_gracefully :
    (∀ srcA srcB : Source, is_archive_path srcA.path = true → srcA.zipExtract = none →
      (∀ e ∈ extract_or_walk srcB, (e.2.size).isSome = true) →
      extract_or_walk srcA = [] ∧
      ∃ r, compare srcA srcB = some r ∧
        (∀ it ∈ r.details, it.type_category = "added") ∧
        r.summary.added = r.details.length ∧
        r.details.length = (List.dedup (keysOf (extract_or_walk srcB))).length ∧
        r.summary.same = 0 ∧ r.summary.diff = 0 ∧ r.summary.deleted = 0) ∧
    (∀ srcA srcB : Source, is_archive_path srcB.path = true → srcB.zipExtract = none →
      (∀ e ∈ extract_or_walk srcA, (e.2.size).isSome = true) →
      extract_or_walk srcB = [] ∧
      ∃ r, compare srcA srcB = some r ∧
        (∀ it ∈ r.details, it.type_category = "deleted") ∧
        r.summary.deleted = r.details.length ∧
        r.details.length = (List.dedup (keysOf (extract_or_walk srcA))).length ∧
        r.summary.same = 0 ∧ r.summary.diff = 0 ∧ r.summary.added = 0) := by
  constructor
  · intro srcA srcB harch hzip hb
    have hfa : extract_or_walk srcA = [] := by
      simp [extract_or_walk, harch, hzip]
    exact ⟨hfa, compare_allAdded hfa hb⟩
  · intro srcA srcB harch hzip ha
    have hfb : extract_or_walk srcB = [] := by
      simp [extract_or_walk, harch, hzip]
    exact ⟨hfb, compare_allDeleted hfb ha⟩

/-- Side A of the C9 witness: a corrupt `app.zip` whose extraction
raises (`zipExtract = none`); the stray `dirWalk` view is irrelevant
since the path names an archive. -/
def c9ZipSrc : Source :=
  { path := "app.zip".data, zipExtract := none,
    dirWalk := [("x".data, { size := some 3, bytes := none, mimeText := false })] }

/-- Side B of the C9 witness: a valid directory of three files. -/
def c9DirSrc : Source :=
  { path := "b".data, zipExtract := none,
    dirWalk := [("p1".data, { size := some 1, bytes := some [97], mimeText := false }),
                ("p2".data, { size := some 1, bytes := some [97], mimeText := false }),
                ("p3".data, { size := some 1, bytes := some [97], mimeText := false })] }

/-- Witness for C9: side A is a corrupt `app.zip` (extraction raises),
side B a directory of three files; the comparison yields only `added`
records and `summary.added` equals the record count (3 = the distinct
keys of side B). -/
theorem c9_extraction_failure_degrades_gracefully_witness :
    extract_or_walk c9ZipSrc = [] ∧
    ∃ r, compare c9ZipSrc c9DirSrc = some r ∧
      (∀ it ∈ r.details, it.type_category = "added") ∧
      r.summary.added = r.details.length ∧
      r.details.length = (List.dedup (keysOf (extract_or_walk c9DirSrc))).length ∧
      r.summary.same = 0 ∧ r.summary.diff = 0 ∧ r.summary.deleted = 0 :=
  c9_extraction_failure_degrades_gracefully.1 c9ZipSrc c9DirSrc (by decide) rfl (by decide)

/-! Claim C10 -/

/-- C10: archive detection in `extract_or_walk` is by file extension,
compared case-insensitively — every source path whose
`os.path.splitext` extension lowercases to `.zip`, `.ipa`, `.apk` or
`.jar` is treated as an archive: the result comes from the zip-extraction
attempt (the extraction directory under the scratch area, or `{}` on
extraction failure), and the directory walk of the path itself is never
consulted. -/
theorem c10_archive_extension_case_insensitive (src : Source)
    (h : lowerStr (splitext src.path).2 ∈ archiveExts) :
    is_archive_path src.path = true ∧
    extract_or_walk src = src.zipExtract.getD [] ∧
    (∀ dw : PathMap, extract_or_walk { src with dirWalk := dw } = extract_or_walk src) := by
  have harch : is_archive_path src.path = true := by
    unfold is_archive_path
    exact decide_eq_true h
  refine ⟨harch, ?_, ?_⟩
  · simp only [extract_or_walk, harch, if_true]
    cases src.zipExtract <;> rfl
  · intro dw
    simp only [extract_or_walk, harch, if_true]

/-- The C10 witness source: an uppercase-named archive `"APP.ZIP"` whose
extraction succeeds with one file, alongside a nonempty directory-walk
view that must be ignored. -/
def c10Src : Source :=
  { path := "APP.ZIP".data,
    zipExtract := some [("m".data, { size := some 2, bytes := some [104, 105], mimeText := false })],
    dirWalk := [("ignored".data, { size := some 9, bytes := none, mimeText := false })] }

/-- Witness for C10: the uppercase path `"APP.ZIP"` is treated as an
archive — the map comes from the extraction outcome, and changing the
directory-walk view changes nothing. -/
theorem c10_archive_extension_case_insensitive_witness :
    is_archive_path "APP.ZIP".data = true ∧
    extract_or_walk c10Src = c10Src.zipExtract.getD [] ∧
    extract_or_walk { c10Src with dirWalk := [] } = extract_or_walk c10Src := by
  have h := c10_archive_extension_case_insensitive c10Src (by decide)
  exact ⟨h.1, h.2.1, h.2.2 []⟩

end DiffTool
